import Mathlib

/-!
Verification of the stock-manager holdings ledger and its unified
transaction client.

The holdings-accounting core (Position Recalculator, balance adjustment,
mutation validation) lives in the FastAPI backend, which is not part of
the checked-in sources here; those definitions are modelled from the
specification (each marked `Modelled from the spec:`).  The unified
client operations (`transactionApi`) and the page-level submit handler
are present in the TypeScript sources and are embedded from them
directly.
-/

namespace StockManager

/-- The two stock-trade kinds (매수 = buy, 매도 = sell). -/
inductive TradeType where
  | buy
  | sell
deriving DecidableEq, Repr

/-- The four cash-transaction kinds (입금, 출금, 배당금, 이자). -/
inductive CashType where
  | deposit
  | withdrawal
  | dividend
  | interest
deriving DecidableEq, Repr

/-- The unified transaction-type enumeration of the client
(입금 | 출금 | 매수 | 매도 | 배당금 | 이자), from `Transaction` in the
frontend types. -/
inductive TxType where
  | deposit
  | withdrawal
  | buy
  | sell
  | dividend
  | interest
deriving DecidableEq, Repr

def CashType.toTx : CashType → TxType
  | .deposit => .deposit
  | .withdrawal => .withdrawal
  | .dividend => .dividend
  | .interest => .interest

def TradeType.toTx : TradeType → TxType
  | .buy => .buy
  | .sell => .sell

/-- A stock transaction for one (account, stock) pair, as in
`StockTransaction`: id, date, type, quantity, price per share, fee.
Dates are abstracted to naturals (only their order matters); money and
quantities are rationals. -/
structure Trade where
  id : Nat
  date : Nat
  ttype : TradeType
  quantity : ℚ
  price_per_share : ℚ
  fee : ℚ
deriving DecidableEq, Repr

/-- `total_amount = quantity * price_per_share` (spec §3). -/
def Trade.total_amount (t : Trade) : ℚ := t.quantity * t.price_per_share

/-- `net_amount = total_amount ± fee` (buy: cost increases by fee; sell:
proceeds decrease by fee) (spec §3). -/
def Trade.net_amount (t : Trade) : ℚ :=
  match t.ttype with
  | .buy => t.total_amount + t.fee
  | .sell => t.total_amount - t.fee

/-- Effect of a stock trade on the owning account's cash balance: a buy
decreases the balance by `net_amount`, a sell increases it by
`net_amount` (spec §4.1). -/
def Trade.balanceEffect (t : Trade) : ℚ :=
  match t.ttype with
  | .buy => -t.net_amount
  | .sell => t.net_amount

/-- Derived holding snapshot `{quantity, average_cost, total_cost}`. -/
structure Holding where
  quantity : ℚ
  average_cost : ℚ
  total_cost : ℚ
deriving DecidableEq, Repr

/-- Modelled from the spec: one step of the Position Recalculator's
sequential replay (§4.1).  State is `(quantity, total_cost)`.  A buy
adds `quantity_i * price_i + fee_i` to the cost and `quantity_i` to the
quantity; a sell first checks for oversell (`quantity_i > quantity` is
an error identifying the offending transaction), then reduces the cost
basis proportionally by `avg_cost_before * quantity_i` (the sell's fee
does not change the cost basis) and reduces the quantity. -/
def replayStep (st : ℚ × ℚ) (t : Trade) : Except Nat (ℚ × ℚ) :=
  match t.ttype with
  | .buy => .ok (st.1 + t.quantity, st.2 + t.quantity * t.price_per_share + t.fee)
  | .sell =>
      if t.quantity > st.1 then .error t.id
      else
        let avg : ℚ := if st.1 > 0 then st.2 / st.1 else 0
        .ok (st.1 - t.quantity, st.2 - avg * t.quantity)

/-- Modelled from the spec: the replay loop of §4.1 from a given
`(quantity, total_cost)` state, stopping at the first oversell. -/
def replayFrom (st : ℚ × ℚ) : List Trade → Except Nat (ℚ × ℚ)
  | [] => .ok st
  | t :: ts =>
      match replayStep st t with
      | .error i => .error i
      | .ok st2 => replayFrom st2 ts

/-- Final snapshot from a replay state:
`average_cost = total_cost / quantity` if `quantity > 0`, else 0 (§4.1). -/
def mkHolding (st : ℚ × ℚ) : Holding :=
  ⟨st.1, if st.1 > 0 then st.2 / st.1 else 0, st.2⟩

/-- Modelled from the spec: replay an already-ordered transaction list
starting from `quantity = 0`, `total_cost = 0` (§4.1). -/
def replay (ts : List Trade) : Except Nat Holding :=
  (replayFrom (0, 0) ts).map mkHolding

/-- Ascending `(date, id)` order on trades: date ascending, ties broken
by id (the stable insertion-order key of §4.1). -/
def tradeLE (a b : Trade) : Bool :=
  decide (a.date < b.date ∨ (a.date = b.date ∧ a.id ≤ b.id))

/-- Insertion into a `(date, id)`-sorted trade list. -/
def insertTrade (t : Trade) : List Trade → List Trade
  | [] => [t]
  | u :: us => if tradeLE t u then t :: u :: us else u :: insertTrade t us

/-- Insertion sort by ascending `(date, id)`. -/
def sortTrades : List Trade → List Trade
  | [] => []
  | t :: ts => insertTrade t (sortTrades ts)

/-- Modelled from the spec: the Position Recalculator (§4.1) — sort the
pair's complete transaction history by ascending `(date, id)` and replay
it with the average-cost fold. -/
def recalculate (ts : List Trade) : Except Nat Holding :=
  replay (sortTrades ts)

/-- Persisted state for one (account, stock) pair: its transaction
history, at most one derived holding row (`Option` enforces the
uniqueness invariant), and the owning account's cash balance. -/
structure PairState where
  txns : List Trade
  holding : Option Holding
  balance : ℚ
deriving DecidableEq, Repr

/-- Error kinds of the mutation API (spec §7): a validation error
identifying the offending transaction id, or not-found. -/
inductive ApiError where
  | validation (txId : Nat)
  | notFound
deriving DecidableEq, Repr

/-- Modelled from the spec: `recordTrade` (§6) — reject negative
quantity/price with a `ValidationError`, create the transaction, then
recompute the pair's holding; an oversell during recomputation rejects
the creation (no partial state), otherwise the holding is upserted and
the account balance adjusted by the trade's net effect in the same
logical operation (§4.1). -/
def recordTrade (s : PairState) (t : Trade) : Except ApiError PairState :=
  if t.quantity < 0 ∨ t.price_per_share < 0 then .error (.validation t.id)
  else
    match recalculate (s.txns ++ [t]) with
    | .error i => .error (.validation i)
    | .ok h => .ok ⟨s.txns ++ [t], some h, s.balance + t.balanceEffect⟩

/-- Replace the transaction with the given id by `t2`. -/
def replaceTrade (i : Nat) (t2 : Trade) (ts : List Trade) : List Trade :=
  ts.map (fun t => if t.id = i then t2 else t)

/-- Modelled from the spec: `updateTrade` (§6) — fails with `NotFound`
if the id is absent; otherwise replaces the transaction, recomputes the
holding (rejecting the update on recomputation failure), and adjusts
the balance by the delta between the new and the old net effect (§4.1). -/
def updateTrade (s : PairState) (i : Nat) (t2 : Trade) : Except ApiError PairState :=
  match s.txns.find? (fun t => t.id == i) with
  | none => .error .notFound
  | some told =>
      match recalculate (replaceTrade i t2 s.txns) with
      | .error j => .error (.validation j)
      | .ok h =>
          .ok ⟨replaceTrade i t2 s.txns, some h,
               s.balance + (t2.balanceEffect - told.balanceEffect)⟩

/-- Modelled from the spec: `deleteTrade` (§6) — removes the transaction,
recomputes the holding for the pair with it removed, and reverses the
transaction's full balance effect. -/
def deleteTrade (s : PairState) (i : Nat) : Except ApiError PairState :=
  match s.txns.find? (fun t => t.id == i) with
  | none => .error .notFound
  | some told =>
      match recalculate (s.txns.filter (fun t => t.id != i)) with
      | .error j => .error (.validation j)
      | .ok h =>
          .ok ⟨s.txns.filter (fun t => t.id != i), some h,
               s.balance - told.balanceEffect⟩

/-- Run a trade creation against the persisted state: on failure the
mutation is rejected and the state is exactly as before (all-or-nothing
propagation policy, spec §7). -/
def tryRecordTrade (s : PairState) (t : Trade) : PairState × Option ApiError :=
  match recordTrade s t with
  | .ok s2 => (s2, none)
  | .error e => (s, some e)

/-- Run a trade update against the persisted state: on failure the state
is exactly as before (spec §7). -/
def tryUpdateTrade (s : PairState) (i : Nat) (t2 : Trade) : PairState × Option ApiError :=
  match updateTrade s i t2 with
  | .ok s2 => (s2, none)
  | .error e => (s, some e)

/-- Modelled from the spec: re-derive the holding row from the (unchanged)
transaction history and upsert it (§4.1 side effects). -/
def refreshHolding (s : PairState) : PairState :=
  match recalculate s.txns with
  | .ok h => ⟨s.txns, some h, s.balance⟩
  | .error _ => s

/-- Signed quantity of a trade: `+quantity` for a buy, `-quantity` for a
sell. -/
def Trade.signedQty (t : Trade) : ℚ :=
  match t.ttype with
  | .buy => t.quantity
  | .sell => -t.quantity

/-- Sum of buy quantities minus sell quantities over a history. -/
def signedQtySum (ts : List Trade) : ℚ :=
  (ts.map Trade.signedQty).sum

/-- Well-formed transaction data (spec §3: quantity a positive integer —
here positive — with non-negative price and fee). -/
def WfTrade (t : Trade) : Prop :=
  0 < t.quantity ∧ 0 ≤ t.price_per_share ∧ 0 ≤ t.fee

instance (t : Trade) : Decidable (WfTrade t) := by
  unfold WfTrade; infer_instance

/-- The invariants a persisted holding row must satisfy relative to the
pair's transaction history (spec §3). -/
def HoldingInv (ts : List Trade) (h : Holding) : Prop :=
  0 ≤ h.quantity ∧ 0 ≤ h.average_cost ∧
  h.total_cost = h.quantity * h.average_cost ∧
  h.quantity = signedQtySum ts ∧
  h.average_cost = (if h.quantity > 0 then h.total_cost / h.quantity else 0)

/-- An account-level operation: a cash transaction or a stock trade
(spec §8, balance conservation). -/
inductive Op where
  | cash (ct : CashType) (amount : ℚ)
  | stock (t : Trade)
deriving DecidableEq, Repr

/-- Modelled from the spec: effect of one operation on the account's
cash balance — deposit/dividend/interest add their amount, withdrawal
subtracts it, a buy subtracts `net_amount` and a sell adds it (spec §3,
§4.1). -/
def Op.effect : Op → ℚ
  | .cash .withdrawal a => -a
  | .cash .deposit a => a
  | .cash .dividend a => a
  | .cash .interest a => a
  | .stock t => t.balanceEffect

/-- Modelled from the spec: apply a sequence of successful mutations to
a starting balance. -/
def applyOps (b : ℚ) (ops : List Op) : ℚ :=
  ops.foldl (fun acc op => acc + op.effect) b

/-- Sum of the cash-transaction effects in a sequence. -/
def cashEffects (ops : List Op) : ℚ :=
  (ops.map (fun op => match op with | .cash ct a => Op.effect (.cash ct a) | .stock _ => 0)).sum

/-- Sum of the stock-transaction net effects in a sequence. -/
def stockEffects (ops : List Op) : ℚ :=
  (ops.map (fun op => match op with | .cash _ _ => 0 | .stock t => t.balanceEffect)).sum

/-! ### Unified client (embedded from the TypeScript sources) -/

/-- The two backend endpoint families the unified client routes to:
`POST /stock-transactions/` vs `POST /transactions/`. -/
inductive Endpoint where
  | stockPost
  | cashPost
deriving DecidableEq, Repr

/-- Routing of `transactionApi.createTransaction` (services/api.ts): the
request goes to the stock endpoint exactly when
`transaction_type === '매수' || transaction_type === '매도'`, otherwise
to the cash endpoint. -/
def createTransactionRoute (tt : TxType) : Endpoint :=
  if tt = .buy ∨ tt = .sell then .stockPost else .cashPost

/-- The transaction form payload handled by the page-level submit
handler (`handleSubmit`): optional fields model the presence or absence
of the corresponding key in the JS object. -/
structure FormPayload where
  transaction_type : TxType
  amount : Option ℚ
  stock_name : Option String
  stock_symbol : Option String
  market : Option String
  quantity : Option ℚ
  price_per_share : Option ℚ
  fee : Option ℚ
  exchange_rate : Option ℚ
deriving DecidableEq, Repr

/-- The field-stripping of `handleSubmit` (transaction list page): for
buy/sell the `amount` key is deleted; otherwise the stock keys
`stock_name`, `stock_symbol`, `market`, `quantity`, `price_per_share`
are deleted. -/
def handleSubmitStrip (v : FormPayload) : FormPayload :=
  if v.transaction_type = .buy ∨ v.transaction_type = .sell then
    { v with amount := none }
  else
    { v with stock_name := none, stock_symbol := none, market := none,
             quantity := none, price_per_share := none }

/-- A cash transaction row as returned by the cash endpoint
(`CashTransaction`): its type is one of the four cash kinds. -/
structure CashTxn where
  id : Nat
  ttype : CashType
  date : Nat
  amount : ℚ
deriving DecidableEq, Repr

/-- A stock transaction row as returned by the stock endpoint
(`StockTransaction`): its type is buy or sell. -/
structure StockTxn where
  id : Nat
  ttype : TradeType
  date : Nat
  symbol : String
  quantity : ℚ
deriving DecidableEq, Repr

/-- A unified `Transaction` row of the client (the fields the merge
manipulates): cash rows carry `amount` and no stock fields, stock rows
carry stock fields and no `amount`. -/
structure URow where
  id : Nat
  ttype : TxType
  date : Nat
  amount : Option ℚ
  stock_symbol : Option String
  quantity : Option ℚ
deriving DecidableEq, Repr

/-- Mapping of a cash transaction into a unified row
(`transactionApi.getTransactions`: the stock fields are set to
`undefined`). -/
def cashToRow (c : CashTxn) : URow :=
  ⟨c.id, c.ttype.toTx, c.date, some c.amount, none, none⟩

/-- Mapping of a stock transaction into a unified row
(`transactionApi.getTransactions`: `amount` is set to `undefined`, the
stock fields are extracted from the nested stock object). -/
def stockToRow (s : StockTxn) : URow :=
  ⟨s.id, s.ttype.toTx, s.date, none, some s.symbol, some s.quantity⟩

/-- The JS duplicate-removal pattern
`l.filter((t, index, self) => index === self.findIndex(u => key u = key t))`:
an element is kept exactly when its index is the first index in the whole
list holding its key. -/
def dedupByKey {β : Type} [DecidableEq β] (key : URow → β) (l : List URow) : List URow :=
  (l.enum.filter
      (fun p => l.findIdx (fun u => decide (key u = key p.2)) == p.1)).map Prod.snd

/-- Descending-date order used by the final `sort` of the merged list
(`new Date(b.date) - new Date(a.date)`). -/
def dateGE (a b : URow) : Bool :=
  decide (b.date ≤ a.date)

/-- Insertion into a date-descending row list. -/
def insertRow (r : URow) : List URow → List URow
  | [] => [r]
  | u :: us => if dateGE r u then r :: u :: us else u :: insertRow r us

/-- Sort rows by date descending. -/
def sortRowsByDateDesc : List URow → List URow
  | [] => []
  | r :: rs => insertRow r (sortRowsByDateDesc rs)

/-- The merged cash-then-stock row list built by both unified listing
operations before duplicate removal. -/
def mergedRows (cs : List CashTxn) (ss : List StockTxn) : List URow :=
  cs.map cashToRow ++ ss.map stockToRow

/-- `transactionApi.getTransactions` (per-account unified listing):
merge cash rows before stock rows, remove duplicates by `id` alone
keeping the first occurrence, then sort by date descending. -/
def getTransactionsModel (cs : List CashTxn) (ss : List StockTxn) : List URow :=
  sortRowsByDateDesc (dedupByKey (fun r => r.id) (mergedRows cs ss))

/-- `transactionApi.getAllTransactions` (all-accounts unified listing):
merge cash rows before stock rows, remove duplicates by the pair
`(id, transaction_type)` keeping the first occurrence, then sort by date
descending. -/
def getAllTransactionsModel (cs : List CashTxn) (ss : List StockTxn) : List URow :=
  sortRowsByDateDesc (dedupByKey (fun r => (r.id, r.ttype)) (mergedRows cs ss))

/-- The backend stores visible to the single-transaction operations; a
cash (resp. stock) endpoint call for an id throws exactly when no row
with that id exists (modelled from the spec/README: the endpoint returns
an error for an unknown id, which axios surfaces as a thrown exception). -/
structure Backend where
  cash : List CashTxn
  stock : List StockTxn
deriving DecidableEq, Repr

/-- Result of a unified single-transaction fetch. -/
inductive FetchResult where
  | cashRes (c : CashTxn)
  | stockRes (s : StockTxn)
  | failure
deriving DecidableEq, Repr

/-- `transactionApi.getTransaction`: try the cash endpoint first and
fall back to the stock endpoint only if the cash call throws; if both
throw, the failure propagates to the caller. -/
def getTransactionModel (db : Backend) (i : Nat) : FetchResult :=
  match db.cash.find? (fun c => c.id == i) with
  | some c => .cashRes c
  | none =>
      match db.stock.find? (fun s => s.id == i) with
      | some s => .stockRes s
      | none => .failure

/-- Which store a mutation touched. -/
inductive TouchedStore where
  | cashStore
  | stockStore
deriving DecidableEq, Repr

/-- `transactionApi.updateTransaction`: try the cash endpoint first
(applying `uc` to the cash row with the id), and fall back to the stock
endpoint (applying `us`) only if the cash call throws; `none` means both
calls failed. -/
def updateTransactionModel (db : Backend) (i : Nat)
    (uc : CashTxn → CashTxn) (us : StockTxn → StockTxn) :
    Option (Backend × TouchedStore) :=
  match db.cash.find? (fun c => c.id == i) with
  | some _ =>
      some (⟨db.cash.map (fun c => if c.id = i then uc c else c), db.stock⟩, .cashStore)
  | none =>
      match db.stock.find? (fun s => s.id == i) with
      | some _ =>
          some (⟨db.cash, db.stock.map (fun s => if s.id = i then us s else s)⟩, .stockStore)
      | none => none

/-- `transactionApi.deleteTransaction`: try the cash endpoint first and
fall back to the stock endpoint only if the cash call throws; `none`
means both calls failed. -/
def deleteTransactionModel (db : Backend) (i : Nat) :
    Option (Backend × TouchedStore) :=
  match db.cash.find? (fun c => c.id == i) with
  | some _ =>
      some (⟨db.cash.filter (fun c => c.id != i), db.stock⟩, .cashStore)
  | none =>
      match db.stock.find? (fun s => s.id == i) with
      | some _ =>
          some (⟨db.cash, db.stock.filter (fun s => s.id != i)⟩, .stockStore)
      | none => none

/-! ### Theorems -/

/-- C1: the Position Recalculator replays the pair's history in
ascending `(date, id)` order with the average-cost fold (buys add
`quantity * price + fee` to the cost basis and `quantity` to the
quantity; sells reduce the cost basis by `avg_cost_before * quantity`
with the fee left out of the cost basis; finally
`average_cost = total_cost / quantity` when positive, else 0).  On the
spec's scenario — buy 10 @ 100 (fee 0), buy 10 @ 200 (fee 0),
sell 5 @ 300 (fee 0) — the successive snapshots are
{qty 10, avg 100, cost 1000}, {qty 20, avg 150, cost 3000} and finally
{qty 15, avg 150, cost 2250}. -/
theorem recalculate_average_cost_scenario :
    recalculate [⟨1, 1, .buy, 10, 100, 0⟩] = .ok ⟨10, 100, 1000⟩ ∧
    recalculate [⟨1, 1, .buy, 10, 100, 0⟩, ⟨2, 2, .buy, 10, 200, 0⟩] =
      .ok ⟨20, 150, 3000⟩ ∧
    recalculate [⟨1, 1, .buy, 10, 100, 0⟩, ⟨2, 2, .buy, 10, 200, 0⟩,
                 ⟨3, 3, .sell, 5, 300, 0⟩] = .ok ⟨15, 150, 2250⟩ := by
  refine ⟨?_, ?_, ?_⟩ <;>
    norm_num [recalculate, replay, sortTrades, insertTrade, tradeLE,
              replayFrom, replayStep, mkHolding, Except.map]

/-- C4: the Position Recalculator is a deterministic pure function of
the ordered transaction set — re-deriving and upserting the holding
from an unchanged history is idempotent, and any two replays of the
same ordered set yield equal snapshots. -/
theorem recalculate_deterministic :
    (∀ s : PairState, refreshHolding (refreshHolding s) = refreshHolding s) ∧
    (∀ ts : List Trade, recalculate ts = recalculate ts) ∧
    (∀ ts1 ts2 : List Trade, ts1 = ts2 → recalculate ts1 = recalculate ts2) := by
  refine ⟨?_, fun ts => rfl, fun ts1 ts2 h => by rw [h]⟩
  intro s
  cases h : recalculate s.txns with
  | error i => simp [refreshHolding, h]
  | ok hl => simp [refreshHolding, h]

/-- Witness for C4 at a concrete input. -/
theorem recalculate_deterministic_witness :
    recalculate [] = recalculate ([] : List Trade) :=
  recalculate_deterministic.2.2 [] [] rfl

/-- C3: a successful buy decreases the account balance by
`quantity * price_per_share + fee`; a successful sell increases it by
`quantity * price_per_share - fee`; a successful edit changes it by
exactly the delta between the new and the old balance effect (for a
buy-to-buy edit, by `-(new_net_amount - old_net_amount)`); deleting the
only buy transaction of a pair zeroes the holding and restores the full
`net_amount`.  The edit-reversal scenario — create buy 10 @ 100, edit
it to 10 @ 120 — moves the balance from −1000 to −1200 and the average
cost to 120. -/
theorem trade_mutation_balance_effects :
    (∀ (s : PairState) (t : Trade) (s2 : PairState), t.ttype = .buy →
        recordTrade s t = .ok s2 →
        s2.balance = s.balance - (t.quantity * t.price_per_share + t.fee)) ∧
    (∀ (s : PairState) (t : Trade) (s2 : PairState), t.ttype = .sell →
        recordTrade s t = .ok s2 →
        s2.balance = s.balance + (t.quantity * t.price_per_share - t.fee)) ∧
    (∀ (s : PairState) (i : Nat) (t2 told : Trade) (s2 : PairState),
        s.txns.find? (fun t => t.id == i) = some told →
        updateTrade s i t2 = .ok s2 →
        s2.balance = s.balance + (t2.balanceEffect - told.balanceEffect)) ∧
    (∀ (s : PairState) (i : Nat) (t2 told : Trade) (s2 : PairState),
        s.txns.find? (fun t => t.id == i) = some told →
        told.ttype = .buy → t2.ttype = .buy →
        updateTrade s i t2 = .ok s2 →
        s2.balance = s.balance - (t2.net_amount - told.net_amount)) ∧
    (∀ (s : PairState) (t : Trade), s.txns = [t] → t.ttype = .buy →
        deleteTrade s t.id =
          .ok ⟨[], some ⟨0, 0, 0⟩,
               s.balance + (t.quantity * t.price_per_share + t.fee)⟩) ∧
    (recordTrade ⟨[], none, 0⟩ ⟨1, 1, .buy, 10, 100, 0⟩ =
        .ok ⟨[⟨1, 1, .buy, 10, 100, 0⟩], some ⟨10, 100, 1000⟩, -1000⟩ ∧
     updateTrade ⟨[⟨1, 1, .buy, 10, 100, 0⟩], some ⟨10, 100, 1000⟩, -1000⟩ 1
        ⟨1, 1, .buy, 10, 120, 0⟩ =
        .ok ⟨[⟨1, 1, .buy, 10, 120, 0⟩], some ⟨10, 120, 1200⟩, -1200⟩) := by
  refine ⟨?_, ?_, ?_, ?_, ?_, ?_, ?_⟩
  · intro s t s2 htype hok
    unfold recordTrade at hok
    split at hok
    · simp at hok
    · split at hok
      · simp at hok
      · simp only [Except.ok.injEq] at hok
        subst hok
        simp [Trade.balanceEffect, htype, Trade.net_amount, Trade.total_amount]
        ring
  · intro s t s2 htype hok
    unfold recordTrade at hok
    split at hok
    · simp at hok
    · split at hok
      · simp at hok
      · simp only [Except.ok.injEq] at hok
        subst hok
        simp [Trade.balanceEffect, htype, Trade.net_amount, Trade.total_amount]
  · intro s i t2 told s2 hfind hok
    unfold updateTrade at hok
    split at hok
    · simp at hok
    · rename_i told2 heq
      rw [hfind] at heq
      injection heq with heq
      subst heq
      split at hok
      · simp at hok
      · injection hok with hok
        subst hok
        rfl
  · intro s i t2 told s2 hfind htold ht2 hok
    unfold updateTrade at hok
    split at hok
    · simp at hok
    · rename_i told2 heq
      rw [hfind] at heq
      injection heq with heq
      subst heq
      split at hok
      · simp at hok
      · injection hok with hok
        subst hok
        have e2 : t2.balanceEffect = -t2.net_amount := by
          unfold Trade.balanceEffect; rw [ht2]
        have e3 : told.balanceEffect = -told.net_amount := by
          unfold Trade.balanceEffect; rw [htold]
        show s.balance + (t2.balanceEffect - told.balanceEffect) = _
        rw [e2, e3]; ring
  · intro s t htxns htype
    unfold deleteTrade
    rw [htxns]
    simp only [List.find?, beq_self_eq_true, List.filter]
    norm_num [recalculate, replay, sortTrades, replayFrom, mkHolding,
              Except.map, Trade.balanceEffect, htype, Trade.net_amount,
              Trade.total_amount]
    ring
  · norm_num [recordTrade, recalculate, replay, sortTrades, insertTrade,
              replayFrom, replayStep, mkHolding, Except.map,
              Trade.balanceEffect, Trade.net_amount, Trade.total_amount]
  · norm_num [updateTrade, replaceTrade, recalculate, replay, sortTrades,
              insertTrade, replayFrom, replayStep, mkHolding, Except.map,
              Trade.balanceEffect, Trade.net_amount, Trade.total_amount,
              List.find?]

/-- Witness for C3 at concrete inputs: creating a buy of 10 @ 100 with
fee 0 moves the balance from 0 to −1000, and deleting it restores the
holding to zero and the balance to 0. -/
theorem trade_mutation_balance_effects_witness :
    (⟨[⟨1, 1, .buy, 10, 100, 0⟩], some ⟨10, 100, 1000⟩, -1000⟩ : PairState).balance =
      (⟨[], none, 0⟩ : PairState).balance - ((10 : ℚ) * 100 + 0) ∧
    deleteTrade ⟨[⟨1, 1, .buy, 10, 100, 0⟩], some ⟨10, 100, 1000⟩, -1000⟩ 1 =
      .ok ⟨[], some ⟨0, 0, 0⟩, (-1000 : ℚ) + ((10 : ℚ) * 100 + 0)⟩ := by
  constructor
  · exact trade_mutation_balance_effects.1 ⟨[], none, 0⟩ ⟨1, 1, .buy, 10, 100, 0⟩
      _ rfl (by norm_num [recordTrade, recalculate, replay, sortTrades,
        replayFrom, replayStep, mkHolding, Except.map, Trade.balanceEffect,
        Trade.net_amount, Trade.total_amount])
  · exact trade_mutation_balance_effects.2.2.2.2.1
      ⟨[⟨1, 1, .buy, 10, 100, 0⟩], some ⟨10, 100, 1000⟩, -1000⟩
      ⟨1, 1, .buy, 10, 100, 0⟩ rfl rfl

/-- C7: `recordTrade` fails with a `ValidationError` on negative
quantity or price and on oversell, creating no transaction in those
cases (the persisted state is exactly as before); `updateTrade` fails
with `NotFound` when no transaction with the id exists. -/
theorem recordTrade_validation_updateTrade_notFound :
    (∀ (s : PairState) (t : Trade),
        t.quantity < 0 ∨ t.price_per_share < 0 →
        recordTrade s t = .error (.validation t.id) ∧
        tryRecordTrade s t = (s, some (.validation t.id))) ∧
    (∀ (s : PairState) (t : Trade) (i : Nat),
        recalculate (s.txns ++ [t]) = .error i →
        (∃ j, recordTrade s t = .error (.validation j)) ∧
        (tryRecordTrade s t).1 = s) ∧
    (∀ (s : PairState) (i : Nat) (t2 : Trade),
        s.txns.find? (fun t => t.id == i) = none →
        updateTrade s i t2 = .error .notFound ∧
        tryUpdateTrade s i t2 = (s, some .notFound)) := by
  refine ⟨?_, ?_, ?_⟩
  · intro s t hneg
    have h1 : recordTrade s t = .error (.validation t.id) := by
      unfold recordTrade
      rw [if_pos hneg]
    exact ⟨h1, by simp [tryRecordTrade, h1]⟩
  · intro s t i hover
    by_cases hneg : t.quantity < 0 ∨ t.price_per_share < 0
    · have h1 : recordTrade s t = .error (.validation t.id) := by
        unfold recordTrade
        rw [if_pos hneg]
      exact ⟨⟨t.id, h1⟩, by simp [tryRecordTrade, h1]⟩
    · have h1 : recordTrade s t = .error (.validation i) := by
        unfold recordTrade
        rw [if_neg hneg, hover]
      exact ⟨⟨i, h1⟩, by simp [tryRecordTrade, h1]⟩
  · intro s i t2 hfind
    have h1 : updateTrade s i t2 = .error .notFound := by
      unfold updateTrade
      rw [hfind]
    exact ⟨h1, by simp [tryUpdateTrade, h1]⟩

/-- Witness for C7: a buy with quantity −1 is rejected as a validation
error, and an update against an empty history is rejected as not-found. -/
theorem recordTrade_validation_witness :
    (recordTrade ⟨[], none, 0⟩ ⟨7, 1, .buy, -1, 100, 0⟩ =
        .error (.validation 7) ∧
      tryRecordTrade ⟨[], none, 0⟩ ⟨7, 1, .buy, -1, 100, 0⟩ =
        (⟨[], none, 0⟩, some (.validation 7))) ∧
    (updateTrade ⟨[], none, 0⟩ 3 ⟨3, 1, .buy, 1, 1, 0⟩ = .error .notFound ∧
      tryUpdateTrade ⟨[], none, 0⟩ 3 ⟨3, 1, .buy, 1, 1, 0⟩ =
        (⟨[], none, 0⟩, some .notFound)) :=
  ⟨recordTrade_validation_updateTrade_notFound.1 ⟨[], none, 0⟩
      ⟨7, 1, .buy, -1, 100, 0⟩ (by norm_num),
    recordTrade_validation_updateTrade_notFound.2.2 ⟨[], none, 0⟩ 3
      ⟨3, 1, .buy, 1, 1, 0⟩ (by simp [List.find?])⟩

/-- C2: a create or update whose resulting `(date, id)`-ordered history
oversells is rejected with a `ValidationError` identifying the offending
transaction, and the persisted pair state (holding and balance) is
exactly as before the mutation.  In particular, with held quantity 10
(one buy of 10 at date 1), a sell of 11 at any date `d ≥ 1` is rejected
and the holding stays at quantity 10. -/
theorem oversell_rejected_state_unchanged :
    (∀ (s : PairState) (t : Trade) (i : Nat),
        ¬(t.quantity < 0 ∨ t.price_per_share < 0) →
        recalculate (s.txns ++ [t]) = .error i →
        tryRecordTrade s t = (s, some (.validation i))) ∧
    (∀ (s : PairState) (k : Nat) (t2 told : Trade) (j : Nat),
        s.txns.find? (fun t => t.id == k) = some told →
        recalculate (replaceTrade k t2 s.txns) = .error j →
        tryUpdateTrade s k t2 = (s, some (.validation j))) ∧
    (∀ d : Nat, 1 ≤ d →
        tryRecordTrade
            ⟨[⟨1, 1, .buy, 10, 100, 0⟩], some ⟨10, 100, 1000⟩, -1000⟩
            ⟨2, d, .sell, 11, 300, 0⟩ =
          (⟨[⟨1, 1, .buy, 10, 100, 0⟩], some ⟨10, 100, 1000⟩, -1000⟩,
           some (.validation 2))) := by
  refine ⟨?_, ?_, ?_⟩
  · intro s t i hneg hover
    have h1 : recordTrade s t = .error (.validation i) := by
      unfold recordTrade
      rw [if_neg hneg, hover]
    simp [tryRecordTrade, h1]
  · intro s k t2 told j hfind hover
    have h1 : updateTrade s k t2 = .error (.validation j) := by
      unfold updateTrade
      rw [hfind, hover]
    simp [tryUpdateTrade, h1]
  · intro d hd
    have hle : tradeLE ⟨1, 1, .buy, 10, 100, 0⟩ ⟨2, d, .sell, 11, 300, 0⟩ = true := by
      simp only [tradeLE, decide_eq_true_eq]
      omega
    have hover : recalculate
        ([⟨1, 1, .buy, 10, 100, 0⟩] ++ [⟨2, d, .sell, 11, 300, 0⟩]) =
        .error 2 := by
      norm_num [recalculate, replay, sortTrades, insertTrade, hle,
                replayFrom, replayStep, Except.map]
    have h1 : recordTrade
        ⟨[⟨1, 1, .buy, 10, 100, 0⟩], some ⟨10, 100, 1000⟩, -1000⟩
        ⟨2, d, .sell, 11, 300, 0⟩ = .error (.validation 2) := by
      unfold recordTrade
      rw [if_neg (by norm_num), hover]
    simp [tryRecordTrade, h1]

/-- Witness for C2 at a concrete input: with held quantity 10, a sell
of 11 at date 5 is rejected and the state is unchanged. -/
theorem oversell_rejected_state_unchanged_witness :
    (1 ≤ 5) ∧
    tryRecordTrade ⟨[⟨1, 1, .buy, 10, 100, 0⟩], some ⟨10, 100, 1000⟩, -1000⟩
        ⟨2, 5, .sell, 11, 300, 0⟩ =
      (⟨[⟨1, 1, .buy, 10, 100, 0⟩], some ⟨10, 100, 1000⟩, -1000⟩,
       some (.validation 2)) :=
  ⟨by norm_num, oversell_rejected_state_unchanged.2.2 5 (by norm_num)⟩

/-- One replay step preserves the state invariants (non-negative
quantity and cost basis, zero cost at zero quantity) and moves the
quantity by the trade's signed quantity. -/
theorem replayFrom_inv :
    ∀ (ts : List Trade) (st st2 : ℚ × ℚ),
      (∀ t ∈ ts, WfTrade t) →
      0 ≤ st.1 → 0 ≤ st.2 → (st.1 = 0 → st.2 = 0) →
      replayFrom st ts = .ok st2 →
      0 ≤ st2.1 ∧ 0 ≤ st2.2 ∧ (st2.1 = 0 → st2.2 = 0) ∧
        st2.1 = st.1 + signedQtySum ts := by
  intro ts
  induction ts with
  | nil =>
      intro st st2 _ h1 h2 hz hrun
      simp only [replayFrom] at hrun
      injection hrun with hrun
      subst hrun
      refine ⟨h1, h2, hz, ?_⟩
      simp [signedQtySum]
  | cons t ts ih =>
      intro st st2 hwf h1 h2 hz hrun
      have hwft : WfTrade t := hwf t (List.mem_cons_self t ts)
      obtain ⟨hq, hp, hf⟩ := hwft
      have hwf' : ∀ u ∈ ts, WfTrade u := fun u hu => hwf u (List.mem_cons_of_mem t hu)
      simp only [replayFrom] at hrun
      cases htt : t.ttype with
      | buy =>
          rw [replayStep, htt] at hrun
          have h1' : (0 : ℚ) ≤ st.1 + t.quantity := by linarith
          have h2' : (0 : ℚ) ≤ st.2 + t.quantity * t.price_per_share + t.fee := by
            nlinarith
          have hz' : st.1 + t.quantity = 0 →
              st.2 + t.quantity * t.price_per_share + t.fee = 0 := by
            intro h0; linarith
          obtain ⟨g1, g2, g3, g4⟩ := ih _ st2 hwf' h1' h2' hz' hrun
          refine ⟨g1, g2, g3, ?_⟩
          rw [g4]
          simp [signedQtySum, Trade.signedQty, htt]
          ring
      | sell =>
          by_cases hgt : t.quantity > st.1
          · simp only [replayStep, htt, if_pos hgt] at hrun
            simp at hrun
          · simp only [replayStep, htt, if_neg hgt] at hrun
            push_neg at hgt
            have hst1 : (0 : ℚ) < st.1 := lt_of_lt_of_le hq hgt
            rw [if_pos hst1] at hrun
            have hcancel : st.2 / st.1 * st.1 = st.2 :=
              div_mul_cancel₀ _ (ne_of_gt hst1)
            have ha : (0 : ℚ) ≤ st.2 / st.1 := div_nonneg h2 hst1.le
            have h1' : (0 : ℚ) ≤ st.1 - t.quantity := by linarith
            have h2' : (0 : ℚ) ≤ st.2 - st.2 / st.1 * t.quantity := by
              nlinarith [mul_nonneg ha h1']
            have hz' : st.1 - t.quantity = 0 →
                st.2 - st.2 / st.1 * t.quantity = 0 := by
              intro h0
              have hqe : t.quantity = st.1 := by linarith
              rw [hqe, hcancel]
              ring
            obtain ⟨g1, g2, g3, g4⟩ := ih _ st2 hwf' h1' h2' hz' hrun
            refine ⟨g1, g2, g3, ?_⟩
            rw [g4]
            simp [signedQtySum, Trade.signedQty, htt]
            ring

/-- Inserting into a sorted trade list is a permutation of consing. -/
theorem insertTrade_perm (t : Trade) :
    ∀ ts : List Trade, (insertTrade t ts).Perm (t :: ts) := by
  intro ts
  induction ts with
  | nil => simp [insertTrade]
  | cons u us ih =>
      rw [insertTrade]
      split
      · exact List.Perm.refl _
      · exact (List.Perm.cons u ih).trans (List.Perm.swap t u us)

/-- Insertion sort by `(date, id)` permutes the history. -/
theorem sortTrades_perm : ∀ ts : List Trade, (sortTrades ts).Perm ts := by
  intro ts
  induction ts with
  | nil => exact List.Perm.refl _
  | cons t ts ih =>
      rw [sortTrades]
      exact (insertTrade_perm t (sortTrades ts)).trans (List.Perm.cons t ih)

/-- A successful recomputation over a well-formed history satisfies the
holding invariants. -/
theorem recalculate_inv (ts : List Trade) (h : Holding)
    (hwf : ∀ t ∈ ts, WfTrade t) (hok : recalculate ts = .ok h) :
    HoldingInv ts h := by
  unfold recalculate replay at hok
  cases hr : replayFrom (0, 0) (sortTrades ts) with
  | error i => rw [hr] at hok; simp [Except.map] at hok
  | ok st2 =>
      rw [hr] at hok
      simp only [Except.map, Except.ok.injEq] at hok
      subst hok
      have hwf' : ∀ t ∈ sortTrades ts, WfTrade t :=
        fun t ht => hwf t ((sortTrades_perm ts).mem_iff.mp ht)
      obtain ⟨h1, h2, hzc, hsum⟩ :=
        replayFrom_inv (sortTrades ts) (0, 0) st2 hwf' le_rfl le_rfl (fun _ => rfl) hr
      have hsum' : signedQtySum (sortTrades ts) = signedQtySum ts := by
        unfold signedQtySum
        exact ((sortTrades_perm ts).map Trade.signedQty).sum_eq
      refine ⟨h1, ?_, ?_, ?_, rfl⟩
      · by_cases hpos : st2.1 > 0
        · rw [mkHolding, if_pos hpos]
          exact div_nonneg h2 hpos.le
        · rw [mkHolding, if_neg hpos]
      · by_cases hpos : st2.1 > 0
        · show st2.2 = st2.1 * (if st2.1 > 0 then st2.2 / st2.1 else 0)
          rw [if_pos hpos, mul_comm]
          exact (div_mul_cancel₀ _ (ne_of_gt hpos)).symm
        · have hq0 : st2.1 = 0 := le_antisymm (not_lt.mp hpos) h1
          show st2.2 = st2.1 * (if st2.1 > 0 then st2.2 / st2.1 else 0)
          rw [hq0, hzc hq0, zero_mul]
      · show st2.1 = signedQtySum ts
        rw [hsum, hsum', zero_add]

/-- C5: after every completed trade mutation the pair's single holding
row (`Option` enforces at-most-one) satisfies the spec invariants:
non-negative quantity and average cost,
`total_cost = quantity * average_cost`, quantity equal to the sum of
buy quantities minus sell quantities over the pair's history, and
`average_cost = total_cost / quantity` when the quantity is positive,
else 0. -/
theorem holding_row_invariants :
    (∀ (s : PairState) (t : Trade) (s2 : PairState),
        recordTrade s t = .ok s2 →
        (∀ u ∈ s2.txns, WfTrade u) →
        ∃ h, s2.holding = some h ∧ HoldingInv s2.txns h) ∧
    (∀ (s : PairState) (i : Nat) (t2 : Trade) (s2 : PairState),
        updateTrade s i t2 = .ok s2 →
        (∀ u ∈ s2.txns, WfTrade u) →
        ∃ h, s2.holding = some h ∧ HoldingInv s2.txns h) ∧
    (∀ (s : PairState) (i : Nat) (s2 : PairState),
        deleteTrade s i = .ok s2 →
        (∀ u ∈ s2.txns, WfTrade u) →
        ∃ h, s2.holding = some h ∧ HoldingInv s2.txns h) := by
  refine ⟨?_, ?_, ?_⟩
  · intro s t s2 hok hwf
    unfold recordTrade at hok
    split at hok
    · simp at hok
    · split at hok
      · simp at hok
      · rename_i h heq
        injection hok with hok
        subst hok
        exact ⟨h, rfl, recalculate_inv _ h hwf heq⟩
  · intro s i t2 s2 hok hwf
    unfold updateTrade at hok
    split at hok
    · simp at hok
    · split at hok
      · simp at hok
      · rename_i h heq
        injection hok with hok
        subst hok
        exact ⟨h, rfl, recalculate_inv _ h hwf heq⟩
  · intro s i s2 hok hwf
    unfold deleteTrade at hok
    split at hok
    · simp at hok
    · split at hok
      · simp at hok
      · rename_i h heq
        injection hok with hok
        subst hok
        exact ⟨h, rfl, recalculate_inv _ h hwf heq⟩

/-- Witness for C5: the holding row after creating the single buy
10 @ 100 (fee 0) satisfies the invariants. -/
theorem holding_row_invariants_witness :
    ∃ h, (⟨[⟨1, 1, .buy, 10, 100, 0⟩], some ⟨10, 100, 1000⟩, -1000⟩ :
            PairState).holding = some h ∧
      HoldingInv [⟨1, 1, .buy, 10, 100, 0⟩] h :=
  holding_row_invariants.1 ⟨[], none, 0⟩ ⟨1, 1, .buy, 10, 100, 0⟩
    ⟨[⟨1, 1, .buy, 10, 100, 0⟩], some ⟨10, 100, 1000⟩, -1000⟩
    (by norm_num [recordTrade, recalculate, replay, sortTrades, replayFrom,
                  replayStep, mkHolding, Except.map, Trade.balanceEffect,
                  Trade.net_amount, Trade.total_amount])
    (by intro u hu
        simp only [List.mem_singleton] at hu
        subst hu
        exact ⟨by norm_num, by norm_num, le_rfl⟩)

/-- Folding the operation effects equals adding the total effect sum. -/
theorem applyOps_eq_add_sum :
    ∀ (ops : List Op) (b : ℚ), applyOps b ops = b + (ops.map Op.effect).sum := by
  intro ops
  induction ops with
  | nil => intro b; simp [applyOps]
  | cons op ops ih =>
      intro b
      show applyOps (b + op.effect) ops = _
      rw [ih]
      simp
      ring

/-- The total effect sum splits into cash effects plus stock effects. -/
theorem effects_split :
    ∀ ops : List Op, (ops.map Op.effect).sum = cashEffects ops + stockEffects ops := by
  intro ops
  induction ops with
  | nil => simp [cashEffects, stockEffects]
  | cons op ops ih =>
      cases op with
      | cash ct a =>
          simp only [List.map_cons, List.sum_cons, cashEffects, stockEffects] at ih ⊢
          rw [ih]
          ring
      | stock t =>
          simp only [List.map_cons, List.sum_cons, cashEffects, stockEffects,
                     Op.effect] at ih ⊢
          rw [ih]
          ring

/-- C6: after any finite sequence of successful mutations the balance
equals the initial balance plus the sum of the cash-transaction effects
(deposit/dividend/interest add, withdrawal subtracts) plus the sum of
the stock-transaction net effects (buy subtracts `net_amount`, sell adds
it), and the final balance is the same for every interleaving order of
the same multiset of operations. -/
theorem balance_conservation :
    (∀ (b : ℚ) (ops : List Op),
        applyOps b ops = b + cashEffects ops + stockEffects ops) ∧
    (∀ (b : ℚ) (ops1 ops2 : List Op), ops1.Perm ops2 →
        applyOps b ops1 = applyOps b ops2) := by
  constructor
  · intro b ops
    rw [applyOps_eq_add_sum, effects_split]
    ring
  · intro b ops1 ops2 hperm
    rw [applyOps_eq_add_sum, applyOps_eq_add_sum]
    rw [(hperm.map Op.effect).sum_eq]

/-- Witness for C6 at a concrete input: a deposit of 100 and a buy of
1 @ 10 (fee 2) commute and yield the conserved balance. -/
theorem balance_conservation_witness :
    applyOps 0 [.cash .deposit 100, .stock ⟨1, 1, .buy, 1, 10, 2⟩] =
      applyOps 0 [.stock ⟨1, 1, .buy, 1, 10, 2⟩, .cash .deposit 100] :=
  balance_conservation.2 0 _ _
    (List.Perm.swap (Op.stock ⟨1, 1, .buy, 1, 10, 2⟩)
      (Op.cash CashType.deposit 100) [])

/-- C8: `transactionApi.createTransaction` routes to the
stock-transaction endpoint exactly for 매수 (buy) and 매도 (sell) and to
the cash-transaction endpoint for every other type, and the page-level
submit handler removes `amount` from buy/sell payloads and removes the
stock fields (`stock_name`, `stock_symbol`, `market`, `quantity`,
`price_per_share`) from cash payloads, leaving the other fields
untouched. -/
theorem createTransaction_routing_and_strip :
    (∀ tt : TxType,
        (createTransactionRoute tt = .stockPost ↔ (tt = .buy ∨ tt = .sell)) ∧
        (createTransactionRoute tt = .cashPost ↔ ¬(tt = .buy ∨ tt = .sell))) ∧
    (∀ v : FormPayload,
        (v.transaction_type = .buy ∨ v.transaction_type = .sell) →
        handleSubmitStrip v = { v with amount := none }) ∧
    (∀ v : FormPayload,
        ¬(v.transaction_type = .buy ∨ v.transaction_type = .sell) →
        handleSubmitStrip v =
          { v with stock_name := none, stock_symbol := none, market := none,
                   quantity := none, price_per_share := none }) := by
  refine ⟨?_, ?_, ?_⟩
  · intro tt
    cases tt <;> simp [createTransactionRoute]
  · intro v hv
    unfold handleSubmitStrip
    rw [if_pos hv]
  · intro v hv
    unfold handleSubmitStrip
    rw [if_neg hv]

/-- Witness for C8 at concrete payloads: a 매수 (buy) payload loses its
`amount` key, while an 입금 (deposit) payload loses its stock keys. -/
theorem createTransaction_routing_and_strip_witness :
    (createTransactionRoute .buy = .stockPost ↔
        ((.buy : TxType) = .buy ∨ (.buy : TxType) = .sell)) ∧
    handleSubmitStrip
        ⟨.buy, some 1000, some "sn", some "sym", some "KRX",
         some 10, some 100, some 0, none⟩ =
      ⟨.buy, none, some "sn", some "sym", some "KRX",
       some 10, some 100, some 0, none⟩ ∧
    handleSubmitStrip
        ⟨.deposit, some 1000, some "sn", some "sym", some "KRX",
         some 10, some 100, some 0, none⟩ =
      ⟨.deposit, some 1000, none, none, none, none, none, some 0, none⟩ :=
  ⟨(createTransaction_routing_and_strip.1 .buy).1,
    createTransaction_routing_and_strip.2.1 _ (Or.inl rfl),
    createTransaction_routing_and_strip.2.2 _ (by simp)⟩

/-- C10: the unified single-transaction operations try the cash
endpoint first and touch the stock endpoint only when the cash call
throws: when both a cash and a stock transaction exist with the id, the
get reads the cash one, the update rewrites only the cash store and the
delete removes only from the cash store (the stock store is unchanged),
and a failure reaches the caller exactly when both endpoint calls fail. -/
theorem unified_ops_cash_first :
    (∀ (db : Backend) (i : Nat) (c : CashTxn),
        db.cash.find? (fun x => x.id == i) = some c →
        getTransactionModel db i = .cashRes c) ∧
    (∀ (db : Backend) (i : Nat),
        getTransactionModel db i = .failure ↔
          (db.cash.find? (fun x => x.id == i) = none ∧
           db.stock.find? (fun x => x.id == i) = none)) ∧
    (∀ (db : Backend) (i : Nat) (c : CashTxn)
        (uc : CashTxn → CashTxn) (us : StockTxn → StockTxn),
        db.cash.find? (fun x => x.id == i) = some c →
        updateTransactionModel db i uc us =
          some (⟨db.cash.map (fun x => if x.id = i then uc x else x),
                 db.stock⟩, .cashStore)) ∧
    (∀ (db : Backend) (i : Nat)
        (uc : CashTxn → CashTxn) (us : StockTxn → StockTxn),
        updateTransactionModel db i uc us = none ↔
          (db.cash.find? (fun x => x.id == i) = none ∧
           db.stock.find? (fun x => x.id == i) = none)) ∧
    (∀ (db : Backend) (i : Nat) (c : CashTxn),
        db.cash.find? (fun x => x.id == i) = some c →
        deleteTransactionModel db i =
          some (⟨db.cash.filter (fun x => x.id != i), db.stock⟩, .cashStore)) ∧
    (∀ (db : Backend) (i : Nat),
        deleteTransactionModel db i = none ↔
          (db.cash.find? (fun x => x.id == i) = none ∧
           db.stock.find? (fun x => x.id == i) = none)) := by
  refine ⟨?_, ?_, ?_, ?_, ?_, ?_⟩
  · intro db i c hc
    simp [getTransactionModel, hc]
  · intro db i
    cases hc : db.cash.find? (fun x => x.id == i) with
    | some c => simp [getTransactionModel, hc]
    | none =>
        cases hs : db.stock.find? (fun x => x.id == i) with
        | some s0 => simp [getTransactionModel, hc, hs]
        | none => simp [getTransactionModel, hc, hs]
  · intro db i c uc us hc
    simp [updateTransactionModel, hc]
  · intro db i uc us
    cases hc : db.cash.find? (fun x => x.id == i) with
    | some c => simp [updateTransactionModel, hc]
    | none =>
        cases hs : db.stock.find? (fun x => x.id == i) with
        | some s0 => simp [updateTransactionModel, hc, hs]
        | none => simp [updateTransactionModel, hc, hs]
  · intro db i c hc
    simp [deleteTransactionModel, hc]
  · intro db i
    cases hc : db.cash.find? (fun x => x.id == i) with
    | some c => simp [deleteTransactionModel, hc]
    | none =>
        cases hs : db.stock.find? (fun x => x.id == i) with
        | some s0 => simp [deleteTransactionModel, hc, hs]
        | none => simp [deleteTransactionModel, hc, hs]

/-- Witness for C10 at a concrete store holding a cash and a stock
transaction that share id 5: the get returns the cash row and the
delete removes only the cash row. -/
theorem unified_ops_cash_first_witness :
    getTransactionModel ⟨[⟨5, .deposit, 1, 100⟩], [⟨5, .buy, 2, "A", 3⟩]⟩ 5 =
      .cashRes ⟨5, .deposit, 1, 100⟩ ∧
    deleteTransactionModel ⟨[⟨5, .deposit, 1, 100⟩], [⟨5, .buy, 2, "A", 3⟩]⟩ 5 =
      some (⟨[], [⟨5, .buy, 2, "A", 3⟩]⟩, .cashStore) := by
  constructor
  · exact unified_ops_cash_first.1 ⟨[⟨5, .deposit, 1, 100⟩], [⟨5, .buy, 2, "A", 3⟩]⟩
      5 ⟨5, .deposit, 1, 100⟩ rfl
  · have h := unified_ops_cash_first.2.2.2.2.1
      ⟨[⟨5, .deposit, 1, 100⟩], [⟨5, .buy, 2, "A", 3⟩]⟩ 5 ⟨5, .deposit, 1, 100⟩ rfl
    simpa using h

/-- If some position satisfies the predicate, `findIdx` is at most that
position. -/
theorem findIdx_le_of_getElem? {α : Type} (p : α → Bool) :
    ∀ (l : List α) (k : Nat) (r : α), l[k]? = some r → p r = true →
      l.findIdx p ≤ k := by
  intro l
  induction l with
  | nil => intro k r hk _; simp at hk
  | cons a l ih =>
      intro k r hk hp
      cases k with
      | zero =>
          simp at hk
          subst hk
          simp [List.findIdx_cons, hp]
      | succ k =>
          simp at hk
          rw [List.findIdx_cons]
          cases hpa : p a with
          | true => simp
          | false =>
              simp only [cond_false]
              exact Nat.succ_le_succ (ih k r hk hp)

/-- Every element kept by the index-based duplicate filter sits at a
position that is the first position in the whole list holding its key. -/
theorem mem_dedupByKey {β : Type} [DecidableEq β] (key : URow → β)
    (l : List URow) (r : URow) (hr : r ∈ dedupByKey key l) :
    ∃ i, l[i]? = some r ∧
      l.findIdx (fun u => decide (key u = key r)) = i := by
  unfold dedupByKey at hr
  obtain ⟨q, hq, hq2⟩ := List.mem_map.mp hr
  obtain ⟨hqe, hqp⟩ := List.mem_filter.mp hq
  have hget : l[q.1]? = some q.2 := List.mem_enum_iff_getElem?.mp hqe
  rw [hq2] at hget hqp
  exact ⟨q.1, hget, by simpa using hqp⟩

/-- Inserting into a date-descending row list permutes consing. -/
theorem insertRow_perm (r : URow) :
    ∀ l : List URow, (insertRow r l).Perm (r :: l) := by
  intro l
  induction l with
  | nil => simp [insertRow]
  | cons u us ih =>
      rw [insertRow]
      split
      · exact List.Perm.refl _
      · exact (List.Perm.cons u ih).trans (List.Perm.swap r u us)

/-- The date-descending sort permutes the row list. -/
theorem sortRows_perm : ∀ l : List URow, (sortRowsByDateDesc l).Perm l := by
  intro l
  induction l with
  | nil => exact List.Perm.refl _
  | cons r rs ih =>
      rw [sortRowsByDateDesc]
      exact (insertRow_perm r (sortRowsByDateDesc rs)).trans (List.Perm.cons r ih)

/-- Any position of a stock row in the merged list lies past the cash
prefix. -/
theorem stockRow_pos_ge_cash_length (cs : List CashTxn) (ss : List StockTxn)
    (s : StockTxn) (i : Nat)
    (hi : (mergedRows cs ss)[i]? = some (stockToRow s)) :
    cs.length ≤ i := by
  by_contra hlt
  push_neg at hlt
  have hmap : i < (cs.map cashToRow).length := by simpa using hlt
  rw [mergedRows, List.getElem?_append, if_pos hmap] at hi
  rw [List.getElem?_map] at hi
  cases hc : cs[i]? with
  | none => rw [hc] at hi; simp at hi
  | some c =>
      rw [hc] at hi
      have h2 : cashToRow c = stockToRow s := by simpa using hi
      have : (some c.amount : Option ℚ) = none := congrArg URow.amount h2
      simp at this

/-- A cash transaction appears in the cash prefix of the merged list. -/
theorem cashRow_pos_lt_cash_length (cs : List CashTxn) (ss : List StockTxn)
    (c : CashTxn) (hc : c ∈ cs) :
    ∃ k, k < cs.length ∧ (mergedRows cs ss)[k]? = some (cashToRow c) := by
  obtain ⟨k, hk, hck⟩ := List.mem_iff_getElem.mp hc
  refine ⟨k, hk, ?_⟩
  have hmap : k < (cs.map cashToRow).length := by simpa using hk
  rw [mergedRows, List.getElem?_append, if_pos hmap, List.getElem?_map]
  rw [List.getElem?_eq_getElem hk, hck]
  rfl

/-- C9: the per-account unified listing `transactionApi.getTransactions`
deduplicates the merged cash-then-stock list by `id` alone and keeps the
first occurrence, so a stock transaction whose id collides with a cash
transaction of the same account is absent from the result; the
all-accounts variant `transactionApi.getAllTransactions` deduplicates by
`(id, transaction_type)` and retains both rows. -/
theorem getTransactions_dedup_shadows_stock :
    (∀ (cs : List CashTxn) (ss : List StockTxn) (s : StockTxn),
        s ∈ ss → (∃ c ∈ cs, c.id = s.id) →
        stockToRow s ∉ getTransactionsModel cs ss) ∧
    getTransactionsModel [⟨5, .deposit, 10, 100⟩] [⟨5, .buy, 20, "A", 3⟩] =
      [cashToRow ⟨5, .deposit, 10, 100⟩] ∧
    getAllTransactionsModel [⟨5, .deposit, 10, 100⟩] [⟨5, .buy, 20, "A", 3⟩] =
      [stockToRow ⟨5, .buy, 20, "A", 3⟩, cashToRow ⟨5, .deposit, 10, 100⟩] := by
  refine ⟨?_, rfl, rfl⟩
  intro cs ss s _ ⟨c, hcmem, hcid⟩ hmem
  rw [getTransactionsModel] at hmem
  have hmem2 : stockToRow s ∈ dedupByKey (fun r => r.id) (mergedRows cs ss) :=
    (sortRows_perm _).mem_iff.mp hmem
  obtain ⟨i, hget, hfind⟩ := mem_dedupByKey (fun r => r.id) _ _ hmem2
  have hge : cs.length ≤ i := stockRow_pos_ge_cash_length cs ss s i hget
  obtain ⟨k, hk, hck⟩ := cashRow_pos_lt_cash_length cs ss c hcmem
  have hp : (fun u : URow => decide (u.id = (stockToRow s).id)) (cashToRow c)
      = true := by
    simp [cashToRow, stockToRow, hcid]
  have hle := findIdx_le_of_getElem?
    (fun u : URow => decide (u.id = (stockToRow s).id)) (mergedRows cs ss)
    k (cashToRow c) hck hp
  omega

/-- Witness for C9 at the concrete collision: the stock buy with id 5 is
absent from the per-account listing when a cash deposit with id 5
exists. -/
theorem getTransactions_dedup_shadows_stock_witness :
    stockToRow ⟨5, .buy, 20, "A", 3⟩ ∉
      getTransactionsModel [⟨5, .deposit, 10, 100⟩] [⟨5, .buy, 20, "A", 3⟩] :=
  getTransactions_dedup_shadows_stock.1 [⟨5, .deposit, 10, 100⟩]
    [⟨5, .buy, 20, "A", 3⟩] ⟨5, .buy, 20, "A", 3⟩ (List.mem_singleton.mpr rfl)
    ⟨⟨5, .deposit, 10, 100⟩, List.mem_singleton.mpr rfl, rfl⟩

end StockManager
